import Mathlib

/-!
Verification development for the Sona transcription pipeline
(pkg/transcriber/transcriber.go, pkg/assemblyai/client.go,
pkg/youtube/downloader.go).

Strings are modelled as `List Char` (Go strings viewed as rune
sequences; every character relevant to the claims is ASCII, where Go
byte indexing and rune indexing agree).  Pure Go library functions
(strings.Contains, strings.Split, strings.ReplaceAll on one-character
patterns, strings.Trim/TrimSpace, filepath.Base/Ext) are embedded as
executable Lean functions on `List Char`.
-/

set_option maxRecDepth 40000

namespace Sona

/-- Model of Go strings.HasPrefix on rune lists. -/
def startsWithL : List Char → List Char → Bool
  | _, [] => true
  | [], _ :: _ => false
  | c :: cs, d :: ds => c == d && startsWithL cs ds

/-- Model of Go strings.Contains hay needle (substring containment). -/
def strContains : List Char → List Char → Bool
  | [], needle => needle.isEmpty
  | c :: cs, needle => startsWithL (c :: cs) needle || strContains cs needle

/-- Model of Go strings.HasSuffix on rune lists. -/
def endsWithL (s x : List Char) : Bool :=
  startsWithL s.reverse x.reverse

/-- Model of Go strings.ReplaceAll with a one-character pattern and a
one-character replacement: a character-wise map. -/
def replaceChar (old new : Char) (s : List Char) : List Char :=
  s.map (fun c => if c == old then new else c)

/-- Characters matched by the regular expression used at
transcriber.go:629, namely backslash, slash, colon, star, question
mark, double quote, less than, greater than, pipe. -/
def isInvalidChar (c : Char) : Bool :=
  c == '\\' || c == '/' || c == ':' || c == '*' || c == '?' ||
  c == '"' || c == '<' || c == '>' || c == '|'

/-- Model of reg.ReplaceAllString(name, "-") at transcriber.go:630:
each matched character is replaced by a hyphen. -/
def replaceInvalid (s : List Char) : List Char :=
  s.map (fun c => if isInvalidChar c then '-' else c)

/-- Model of one call strings.ReplaceAll(name, "--", "-"):
left-to-right, non-overlapping replacement of double hyphens. -/
def replaceDoubleHyphen : List Char → List Char
  | [] => []
  | [c] => [c]
  | c1 :: c2 :: rest =>
    if c1 == '-' && c2 == '-' then '-' :: replaceDoubleHyphen rest
    else c1 :: replaceDoubleHyphen (c2 :: rest)

/-- Model of strings.Contains(name, "--"), specialised. -/
def containsDouble : List Char → Bool
  | [] => false
  | [_] => false
  | c1 :: c2 :: rest =>
    if c1 == '-' && c2 == '-' then true else containsDouble (c2 :: rest)

/-- Model of the loop at transcriber.go:637-639:
for strings.Contains(name, "--") do name = ReplaceAll(name, "--", "-").
Each iteration with a double hyphen present strictly shrinks the
string, so fuel equal to the length of the string always suffices; the
fueled function computes exactly the fixpoint the Go loop computes. -/
def collapseLoop : Nat → List Char → List Char
  | 0, s => s
  | fuel + 1, s =>
    if containsDouble s then collapseLoop fuel (replaceDoubleHyphen s) else s

/-- Model of unicode.IsSpace, used by strings.TrimSpace: the full Go
White_Space set. -/
def isSpaceChar (c : Char) : Bool :=
  c == ' ' || c == '\t' || c == '\n' || c.toNat == 11 || c.toNat == 12 ||
  c == '\r' || c.toNat == 0x85 || c.toNat == 0xA0 || c.toNat == 0x1680 ||
  (0x2000 ≤ c.toNat && c.toNat ≤ 0x200A) || c.toNat == 0x2028 ||
  c.toNat == 0x2029 || c.toNat == 0x202F || c.toNat == 0x205F ||
  c.toNat == 0x3000

/-- Drop the longest run of characters satisfying p from the end of the
list (Go strings.TrimRight semantics). -/
def dropTrailing (p : Char → Bool) : List Char → List Char
  | [] => []
  | c :: t =>
    if (dropTrailing p t).isEmpty && p c then [] else c :: dropTrailing p t

/-- Trim characters satisfying p from both ends, as Go strings.Trim and
strings.TrimSpace do with their respective character classes. -/
def trimL (p : Char → Bool) (s : List Char) : List Char :=
  dropTrailing p (s.dropWhile p)

/-- Model of strings.TrimSpace at transcriber.go:642. -/
def trimSpaceL (s : List Char) : List Char :=
  trimL isSpaceChar s

/-- Model of strings.Trim(name, "-") at transcriber.go:643. -/
def trimHyphenL (s : List Char) : List Char :=
  trimL (fun c => c == '-') s

/-- Model of the character mapping performed by strings.ToLower at
transcriber.go:646, faithful on the ASCII fragment only: on an
all-ASCII string Go takes a byte-wise fast path equal to this map.  On
non-ASCII input Go additionally lowercases non-ASCII letters and,
through strings.Map, re-encodes invalid UTF-8 bytes as U+FFFD; the
model does not cover that, so every theorem about repeated
sanitization is restricted to ASCII inputs. -/
def goLowerChar (c : Char) : Char :=
  if 65 ≤ c.toNat && c.toNat ≤ 90 then Char.ofNat (c.toNat + 32) else c

/-- Model of sanitizeFilename, transcriber.go:627-660.  The truncation
at transcriber.go:650 is a Go byte slice name[:40]; the model takes 40
characters instead, which agrees with the program exactly when the
string reaching that step is all-ASCII (then bytes and characters
coincide), and in general can keep a multibyte character the byte
slice would cut in half.  Theorems about a single application remain
true of the byte-level program (a byte truncation introduces no
forbidden ASCII byte and at most 40 bytes is at most 40 characters);
the idempotence theorem carries an explicit all-ASCII hypothesis. -/
def sanitizeFilename (name : List Char) : List Char :=
  let n1 := replaceInvalid name
  let n2 := replaceChar ' ' '-' n1
  let n3 := replaceChar '_' '-' n2
  let n4 := collapseLoop n3.length n3
  let n5 := trimSpaceL n4
  let n6 := trimHyphenL n5
  let n7 := n6.map goLowerChar
  let n8 := if 40 < n7.length then n7.take 40 else n7
  if n8.isEmpty then "transcript".toList else n8

/-- Split a list at the first occurrence of the separator sep,
returning the part before it and the part after it, or none when sep
does not occur. -/
def splitFirst (sep : List Char) : List Char → Option (List Char × List Char)
  | [] => if sep.isEmpty then some ([], []) else none
  | c :: t =>
    if startsWithL (c :: t) sep then some ([], (c :: t).drop sep.length)
    else
      match splitFirst sep t with
      | none => none
      | some (pre, post) => some (c :: pre, post)

/-- Fueled worker for goSplit; the initial fuel (length of the string
plus one) always suffices because each recursive step consumes at
least one character of a non-empty separator occurrence. -/
def goSplitAux (sep : List Char) : Nat → List Char → List (List Char)
  | 0, s => [s]
  | fuel + 1, s =>
    match splitFirst sep s with
    | none => [s]
    | some (pre, post) => pre :: goSplitAux sep fuel post

/-- Model of Go strings.Split(s, sep) for a non-empty separator:
the substrings between consecutive non-overlapping occurrences of sep. -/
def goSplit (sep s : List Char) : List (List Char) :=
  goSplitAux sep (s.length + 1) s

/-- Model of filepath.Base restricted to slash-separated paths: strip
trailing slashes, then keep the part after the last slash; the empty
path gives a dot and an all-slash path gives a slash. -/
def goBase (s : List Char) : List Char :=
  if s.isEmpty then ['.']
  else
    let s1 := dropTrailing (fun c => c == '/') s
    if s1.isEmpty then ['/']
    else ((s1.reverse.takeWhile (fun c => c != '/')).reverse)

/-- Model of filepath.Ext: the suffix starting at the final dot of the
last path element, empty when there is no dot. -/
def goExt (s : List Char) : List Char :=
  let r := s.reverse.takeWhile (fun c => c != '/')
  if r.any (fun c => c == '.') then '.' :: (r.takeWhile (fun c => c != '.')).reverse
  else []

/-- Simplified model of filepath.Dir: everything before the last slash,
a dot when there is no slash.  filepath.Dir additionally runs Clean on
the result, which no claim depends on. -/
def goDir (s : List Char) : List Char :=
  if strContains s ['/'] then
    let pre := (s.reverse.dropWhile (fun c => c != '/')).reverse
    if pre == ['/'] then ['/'] else dropTrailing (fun c => c == '/') pre
  else ['.']

/-- Simplified model of filepath.Join of two components: concatenation
with a slash.  filepath.Join additionally runs Clean on the result,
which no claim depends on. -/
def goJoin (a b : List Char) : List Char :=
  if a.isEmpty then b else a ++ '/' :: b

/-!
Remote transcription client, pkg/assemblyai/client.go.

Network effects are shallowly embedded by passing each HTTP exchange
result in as data: a call either fails at transport level, returns a
decoded body, or fails to decode.  The client functions are translated
from the source over these outcomes.
-/

/-- Decoded GET /v2/transcript/id response body (TranscriptResult,
client.go:25-30). -/
structure TranscriptResult where
  id : List Char
  status : List Char
  text : List Char
  error : List Char
deriving DecidableEq

/-- Outcome of one HTTP call whose decoded payload is a single string
(the upload URL for POST /v2/upload, the job id for POST
/v2/transcript). -/
inductive CallOutcome where
  | requestFailed (msg : List Char)
  | httpResp (status : Nat) (body : List Char) (payload : List Char)
  | decodeFailed (msg : List Char)
deriving DecidableEq

/-- Outcome of one polling fetch GET /v2/transcript/id. -/
inductive FetchOutcome where
  | requestFailed (msg : List Char)
  | httpFailed (status : Nat) (body : List Char)
  | decodeFailed (msg : List Char)
  | ok (r : TranscriptResult)
deriving DecidableEq

/-- Structured error values, one constructor per error return site in
client.go (the Go code wraps these as formatted strings; the payloads
carried here are exactly the values interpolated there). -/
inductive ClientError where
  | uploadOpenFailed (msg : List Char)
  | uploadRequestFailed (msg : List Char)
  | uploadFailed (status : Nat) (body : List Char)
  | uploadDecodeFailed (msg : List Char)
  | submitRequestFailed (msg : List Char)
  | submitFailed (status : Nat) (body : List Char)
  | submitDecodeFailed (msg : List Char)
  | pollRequestFailed (msg : List Char)
  | pollFailed (status : Nat) (body : List Char)
  | pollDecodeFailed (msg : List Char)
  | pollTimeout (attempts : Nat)
  | transcriptionFailed (msg : List Char)
deriving DecidableEq

/-- Model of uploadAudioFile, client.go:80-134: open the file, post it,
fail on any non-200 status with the status code and body, otherwise
return the decoded upload URL.  openOk covers the file-open and
form-copy steps; out is the HTTP exchange. -/
def uploadAudioFile (openOk : Bool) (out : CallOutcome) : Except ClientError (List Char) :=
  if !openOk then .error (.uploadOpenFailed ("open".toList))
  else
    match out with
    | .requestFailed m => .error (.uploadRequestFailed m)
    | .decodeFailed m => .error (.uploadDecodeFailed m)
    | .httpResp st body payload =>
      if st = 200 then .ok payload else .error (.uploadFailed st body)

/-- Model of submitTranscription, client.go:137-173. -/
def submitTranscription (out : CallOutcome) : Except ClientError (List Char) :=
  match out with
  | .requestFailed m => .error (.submitRequestFailed m)
  | .decodeFailed m => .error (.submitDecodeFailed m)
  | .httpResp st body payload =>
    if st = 200 then .ok payload else .error (.submitFailed st body)

/-- Value of maxAttempts at client.go:177. -/
def maxAttempts : Nat := 100

/-- Worker for pollTranscription: attempt is the current loop index,
the second argument the remaining attempts.  Besides the result it
returns the number of status fetches performed.  The statuses queued,
processing and the empty string, and any unrecognized status, all
continue polling (client.go:211-218); completed and error both end
polling with a non-error return (client.go:206-210). -/
def pollAux (fetch : Nat → FetchOutcome) (attempt : Nat) :
    Nat → Except ClientError TranscriptResult × Nat
  | 0 => (.error (.pollTimeout maxAttempts), 0)
  | rem + 1 =>
    match fetch attempt with
    | .requestFailed m => (.error (.pollRequestFailed m), 1)
    | .httpFailed st body => (.error (.pollFailed st body), 1)
    | .decodeFailed m => (.error (.pollDecodeFailed m), 1)
    | .ok r =>
      if r.status == ("completed".toList) then (.ok r, 1)
      else if r.status == ("error".toList) then (.ok r, 1)
      else
        let o := pollAux fetch (attempt + 1) rem
        (o.1, o.2 + 1)

/-- Model of pollTranscription, client.go:176-222. -/
def pollTranscription (fetch : Nat → FetchOutcome) :
    Except ClientError TranscriptResult × Nat :=
  pollAux fetch 0 maxAttempts

/-- Network trace of one TranscribeAudio call: how many upload, submit
and poll requests were performed. -/
structure NetTrace where
  uploads : Nat
  submits : Nat
  polls : Nat
deriving DecidableEq

/-- One pipeline run interacts with the outside world through these
oracle values: each field is the outcome the corresponding external
step would produce if reached. -/
structure World where
  localExists : Bool
  mkdirTempOk : Bool
  convertOk : Bool
  metadataOk : Bool
  downloadOk : Bool
  openOk : Bool
  uploadOut : CallOutcome
  submitOut : CallOutcome
  pollFetch : Nat → FetchOutcome
  mkdirOutOk : Bool
  writeOk : Bool
  defaultPath : List Char
  date : List Char

/-- Model of TranscribeAudio, client.go:49-77: upload, submit, poll;
a polled status of error becomes a transcriptionFailed error carrying
the message from the job, a completed status yields the text. -/
def TranscribeAudio (w : World) : Except ClientError (List Char) × NetTrace :=
  match uploadAudioFile w.openOk w.uploadOut with
  | .error e => (.error e, ⟨1, 0, 0⟩)
  | .ok _uploadURL =>
    match submitTranscription w.submitOut with
    | .error e => (.error e, ⟨1, 1, 0⟩)
    | .ok _transcriptID =>
      match pollTranscription w.pollFetch with
      | (.error e, n) => (.error e, ⟨1, 1, n⟩)
      | (.ok r, n) =>
        if r.status == ("error".toList) then
          (.error (.transcriptionFailed r.error), ⟨1, 1, n⟩)
        else (.ok r.text, ⟨1, 1, n⟩)

/-!
Pipeline orchestrator, pkg/transcriber/transcriber.go.
-/

/-- Errors surfaced by one pipeline run, one constructor per wrap site
in processYouTubeVideo, processLocalAudio and saveTranscript. -/
inductive PipeError where
  | downloadFailed (msg : List Char)
  | audioNotFound (path : List Char)
  | tempDirFailed
  | conversionFailed (msg : List Char)
  | transcriptionStep (e : ClientError)
  | saveFailed (msg : List Char)
deriving DecidableEq

deriving instance DecidableEq for Except

/-- Observable outcome of one pipeline run: the returned value, the
temporary files still on disk when the function returns, the
transcript paths written, and the network trace. -/
structure RunOut where
  result : Except PipeError Unit
  leftover : List (List Char)
  writes : List (List Char)
  trace : NetTrace
deriving DecidableEq

/-- Model of the filename construction in saveTranscript,
transcriber.go:569-599: for a YouTube source the video id is extracted
from the v= query parameter, else from the youtu.be/ path segment,
with youtube-video as last resort; for a local source the base name of
the file without its extension is used. -/
def extractTitle (source sourceType : List Char) : List Char :=
  if sourceType == ("youtube".toList) then
    let title :=
      if strContains source ("v=".toList) then
        let parts := goSplit ("v=".toList) source
        if 1 < parts.length then
          let videoID := (goSplit ("&".toList) (parts.getD 1 [])).getD 0 []
          ("youtube-".toList) ++ videoID
        else []
      else if strContains source ("youtu.be/".toList) then
        let parts := goSplit ("youtu.be/".toList) source
        if 1 < parts.length then
          let videoID := (goSplit ("?".toList) (parts.getD 1 [])).getD 0 []
          ("youtube-".toList) ++ videoID
        else []
      else []
    if title.isEmpty then "youtube-video".toList else title
  else
    let baseName := goBase source
    let ext := goExt baseName
    if 0 < ext.length && ext.length < baseName.length then
      baseName.take (baseName.length - ext.length)
    else baseName

/-- Model of the generated filename in saveTranscript,
transcriber.go:601-611: sanitized title, hyphen, date in YYYYMMDD
form, extension txt. -/
def genFilename (source sourceType date : List Char) : List Char :=
  let title := sanitizeFilename (extractTitle source sourceType)
  let title := if title.isEmpty then "transcript".toList else title
  title ++ ('-' :: (date ++ (".txt".toList)))

/-- Model of saveTranscript, transcriber.go:556-624: with a non-empty
explicit output path the transcript is written there verbatim;
otherwise the output directory is created and the generated filename
is joined onto it.  Returns the write outcome and whether MkdirAll was
invoked. -/
def saveTranscriptRun (w : World) (op source sourceType : List Char) :
    Except PipeError (List Char) × Bool :=
  if !op.isEmpty then
    ((if w.writeOk then .ok op else .error (.saveFailed ("write".toList))), false)
  else if !w.mkdirOutOk then (.error (.saveFailed ("mkdir".toList)), true)
  else
    let p := goJoin w.defaultPath (genFilename source sourceType w.date)
    ((if w.writeOk then .ok p else .error (.saveFailed ("write".toList))), true)

/-- Model of youtube.DownloadAudio, downloader.go:14-91: the audio is
written to audio.mp3 inside the output directory.  A metadata lookup
failure (metadataOk false) only produces a warning and a placeholder
title at downloader.go:40-43; the download proceeds either way and the
produced path does not depend on it. -/
def downloadAudio (w : World) (outDir : List Char) : Except (List Char) (List Char) :=
  if w.downloadOk then .ok (goJoin outDir ("audio.mp3".toList))
  else .error ("download failed".toList)

/-- Model of processYouTubeVideo, transcriber.go:127-158: download into
the directory of the output path, transcribe, save; os.Remove on the
downloaded audio file runs only on the all-success path
(transcriber.go:154), so error returns leave the file behind. -/
def processYouTubeVideo (w : World) (url op : List Char) : RunOut :=
  match downloadAudio w (goDir op) with
  | .error e => ⟨.error (.downloadFailed e), [], [], ⟨0, 0, 0⟩⟩
  | .ok audioFile =>
    match TranscribeAudio w with
    | (.error e, tr) => ⟨.error (.transcriptionStep e), [audioFile], [], tr⟩
    | (.ok _text, tr) =>
      match saveTranscriptRun w op url ("youtube".toList) with
      | (.error e, _) => ⟨.error e, [audioFile], [], tr⟩
      | (.ok p, _) => ⟨.ok (), [], [p], tr⟩

/-- Fixed name standing for the fresh directory os.MkdirTemp returns at
transcriber.go:171. -/
def tempDirName : List Char := "/tmp/sona-x".toList

/-- Model of processLocalAudio, transcriber.go:160-195: existence
check, temporary directory with deferred os.RemoveAll (so every return
after its creation leaves no temporary file), conversion, transcription,
save. -/
def processLocalAudio (w : World) (filePath op : List Char) : RunOut :=
  if !w.localExists then ⟨.error (.audioNotFound filePath), [], [], ⟨0, 0, 0⟩⟩
  else if !w.mkdirTempOk then ⟨.error .tempDirFailed, [], [], ⟨0, 0, 0⟩⟩
  else
    match (if w.convertOk then Except.ok (goJoin tempDirName ("converted.mp3".toList))
           else Except.error ("convert failed".toList)) with
    | .error e => ⟨.error (.conversionFailed e), [], [], ⟨0, 0, 0⟩⟩
    | .ok _conv =>
      match TranscribeAudio w with
      | (.error e, tr) => ⟨.error (.transcriptionStep e), [], [], tr⟩
      | (.ok _text, tr) =>
        match saveTranscriptRun w op filePath ("local".toList) with
        | (.error e, _) => ⟨.error e, [], [], tr⟩
        | (.ok p, _) => ⟨.ok (), [], [p], tr⟩

/-- Source classification performed by the transcribe command,
transcriber.go:52-64. -/
inductive SourceKind where
  | youtubeURL
  | localPath
deriving DecidableEq

/-- Model of youtube.IsYouTubeURL, downloader.go:172-174. -/
def IsYouTubeURL (url : List Char) : Bool :=
  strContains url ("youtube.com".toList) || strContains url ("youtu.be".toList)

/-- Model of the dispatch at transcriber.go:52-64: YouTube URLs go to
processYouTubeVideo, everything else to processLocalAudio. -/
def classifySource (s : List Char) : SourceKind :=
  if IsYouTubeURL s then .youtubeURL else .localPath

/-- Model of the filesystem visible to saveTranscript: an association
of paths to file contents. -/
def FS := List (List Char × List Char)

/-- Model of os.WriteFile at transcriber.go:617: create the file, or
truncate and overwrite it when it already exists. -/
def fsWrite (fs : List (List Char × List Char)) (p t : List Char) :
    List (List Char × List Char) :=
  match fs with
  | [] => [(p, t)]
  | e :: rest => if e.1 == p then (p, t) :: rest else e :: fsWrite rest p t

/-- Lookup of the content stored at a path. -/
def lookupFs (p : List Char) : List (List Char × List Char) → Option (List Char)
  | [] => none
  | e :: rest => if e.1 == p then some e.2 else lookupFs p rest

/-- Whether a path exists in the filesystem. -/
def containsKeyFs (p : List Char) : List (List Char × List Char) → Bool
  | [] => false
  | e :: rest => e.1 == p || containsKeyFs p rest

/-- World fixture in which every external step succeeds and the first
poll already reports a completed job. -/
def wCompleted : World :=
  { localExists := true, mkdirTempOk := true, convertOk := true,
    metadataOk := false, downloadOk := true, openOk := true,
    uploadOut := .httpResp 200 [] ("https://cdn.assemblyai.com/upload/1".toList),
    submitOut := .httpResp 200 [] ("job1".toList),
    pollFetch := fun _ =>
      .ok ⟨"job1".toList, "completed".toList, "hello world".toList, []⟩,
    mkdirOutOk := true, writeOk := true,
    defaultPath := "/home/u/sona".toList, date := "20251011".toList }

/-- World fixture in which the first poll reports a job error with
message bad audio. -/
def wErrorFirstPoll : World :=
  { wCompleted with
    pollFetch := fun _ =>
      .ok ⟨"job1".toList, "error".toList, [], "bad audio".toList⟩ }

/-- World fixture in which the upload endpoint answers HTTP 500. -/
def wUpload500 : World :=
  { wCompleted with uploadOut := .httpResp 500 ("server error".toList) [] }

/-!
Helper lemmas about the character-level operations.
-/

theorem toNat_ofNat_valid (n : Nat) (h : n < 55296) : (Char.ofNat n).toNat = n := by
  have hv : n.isValidChar := Or.inl h
  simp only [Char.ofNat, dif_pos hv]
  rfl

theorem goLowerChar_eq_of_out (c b : Char) (hb : b.toNat < 97 ∨ 122 < b.toNat)
    (h : goLowerChar c = b) : c = b := by
  unfold goLowerChar at h
  by_cases hc : (65 ≤ c.toNat && c.toNat ≤ 90) = true
  · exfalso
    rw [if_pos hc] at h
    simp only [Bool.and_eq_true, decide_eq_true_eq] at hc
    have ht : (Char.ofNat (c.toNat + 32)).toNat = c.toNat + 32 :=
      toNat_ofNat_valid _ (by omega)
    have hbn : b.toNat = c.toNat + 32 := by rw [← h, ht]
    omega
  · rwa [if_neg hc] at h

theorem goLowerChar_idem (c : Char) : goLowerChar (goLowerChar c) = goLowerChar c := by
  unfold goLowerChar
  by_cases hc : (65 ≤ c.toNat && c.toNat ≤ 90) = true
  · rw [if_pos hc]
    simp only [Bool.and_eq_true, decide_eq_true_eq] at hc
    have ht : (Char.ofNat (c.toNat + 32)).toNat = c.toNat + 32 :=
      toNat_ofNat_valid _ (by omega)
    rw [if_neg]
    simp only [ht, Bool.and_eq_true, decide_eq_true_eq]
    omega
  · rw [if_neg hc, if_neg hc]

theorem invalid_toNat_out (b : Char) (h : isInvalidChar b = true) :
    b.toNat < 97 ∨ 122 < b.toNat := by
  simp only [isInvalidChar, Bool.or_eq_true, beq_iff_eq] at h
  rcases h with (((((((h | h) | h) | h) | h) | h) | h) | h) | h <;> subst h <;> decide

theorem goLowerChar_invalid (c : Char) (h : isInvalidChar c = false) :
    isInvalidChar (goLowerChar c) = false := by
  by_contra hne
  rw [Bool.not_eq_false] at hne
  have hc : c = goLowerChar c :=
    goLowerChar_eq_of_out c _ (invalid_toNat_out _ hne) rfl
  rw [← hc, h] at hne
  exact Bool.noConfusion hne

/-!
Helper lemmas about double hyphens and the collapse loop.
-/

theorem containsDouble_cons_of (c : Char) (t : List Char)
    (h : containsDouble t = true) : containsDouble (c :: t) = true := by
  cases t with
  | nil => simp [containsDouble] at h
  | cons d r =>
    rw [containsDouble]
    split
    · rfl
    · exact h

theorem containsDouble_spec (s : List Char) :
    containsDouble s = true ↔ ∃ a b, s = a ++ '-' :: '-' :: b := by
  constructor
  · induction s with
    | nil => intro h; simp [containsDouble] at h
    | cons c t ih =>
      intro h
      cases t with
      | nil => simp [containsDouble] at h
      | cons d r =>
        rw [containsDouble] at h
        by_cases hcd : (c == '-' && d == '-') = true
        · simp only [Bool.and_eq_true, beq_iff_eq] at hcd
          exact ⟨[], r, by rw [hcd.1, hcd.2]; rfl⟩
        · rw [if_neg hcd] at h
          obtain ⟨a, b, he⟩ := ih h
          exact ⟨c :: a, b, by rw [List.cons_append, he]⟩
  · rintro ⟨a, b, rfl⟩
    induction a with
    | nil => simp [containsDouble]
    | cons c a ih => exact containsDouble_cons_of c _ ih

theorem containsDouble_sub (s a t b : List Char) (hs : s = a ++ t ++ b)
    (h : containsDouble t = true) : containsDouble s = true := by
  obtain ⟨x, y, rfl⟩ := (containsDouble_spec t).mp h
  refine (containsDouble_spec s).mpr ⟨a ++ x, y ++ b, ?_⟩
  rw [hs]
  simp [List.append_assoc]

theorem containsDouble_reverse_true (s : List Char)
    (h : containsDouble s = true) : containsDouble s.reverse = true := by
  obtain ⟨a, b, rfl⟩ := (containsDouble_spec _).mp h
  refine (containsDouble_spec _).mpr ⟨b.reverse, a.reverse, ?_⟩
  simp

theorem replaceDoubleHyphen_length_le :
    ∀ s : List Char, (replaceDoubleHyphen s).length ≤ s.length
  | [] => by simp [replaceDoubleHyphen]
  | [c] => by simp [replaceDoubleHyphen]
  | c1 :: c2 :: rest => by
    rw [replaceDoubleHyphen]
    by_cases hcd : (c1 == '-' && c2 == '-') = true
    · rw [if_pos hcd]
      have := replaceDoubleHyphen_length_le rest
      simp only [List.length_cons]
      omega
    · rw [if_neg hcd]
      have := replaceDoubleHyphen_length_le (c2 :: rest)
      simp only [List.length_cons] at *
      omega

theorem replaceDoubleHyphen_length_lt :
    ∀ s : List Char, containsDouble s = true →
      (replaceDoubleHyphen s).length < s.length
  | [], h => by simp [containsDouble] at h
  | [c], h => by simp [containsDouble] at h
  | c1 :: c2 :: rest, h => by
    rw [replaceDoubleHyphen]
    by_cases hcd : (c1 == '-' && c2 == '-') = true
    · rw [if_pos hcd]
      have := replaceDoubleHyphen_length_le rest
      simp only [List.length_cons]
      omega
    · rw [if_neg hcd]
      rw [containsDouble, if_neg hcd] at h
      have := replaceDoubleHyphen_length_lt (c2 :: rest) h
      simp only [List.length_cons] at *
      omega

theorem mem_replaceDoubleHyphen :
    ∀ s : List Char, ∀ c ∈ replaceDoubleHyphen s, c ∈ s
  | [] => by simp [replaceDoubleHyphen]
  | [d] => by simp [replaceDoubleHyphen]
  | c1 :: c2 :: rest => by
    intro c hc
    rw [replaceDoubleHyphen] at hc
    by_cases hcd : (c1 == '-' && c2 == '-') = true
    · rw [if_pos hcd] at hc
      simp only [Bool.and_eq_true, beq_iff_eq] at hcd
      rcases List.mem_cons.mp hc with rfl | hm
      · rw [hcd.1]; exact List.mem_cons_self _ _
      · exact List.mem_cons_of_mem _ (List.mem_cons_of_mem _
          (mem_replaceDoubleHyphen rest c hm))
    · rw [if_neg hcd] at hc
      rcases List.mem_cons.mp hc with rfl | hm
      · exact List.mem_cons_self _ _
      · exact List.mem_cons_of_mem _ (mem_replaceDoubleHyphen (c2 :: rest) c hm)

theorem collapseLoop_no_double :
    ∀ fuel s, s.length ≤ fuel → containsDouble (collapseLoop fuel s) = false := by
  intro fuel
  induction fuel with
  | zero =>
    intro s hs
    have : s = [] := List.length_eq_zero.mp (Nat.le_zero.mp hs)
    subst this
    rfl
  | succ n ih =>
    intro s hs
    rw [collapseLoop]
    by_cases hd : containsDouble s = true
    · rw [if_pos hd]
      exact ih _ (by have := replaceDoubleHyphen_length_lt s hd; omega)
    · rw [if_neg hd]
      cases hx : containsDouble s
      · rfl
      · exact absurd hx hd

theorem mem_collapseLoop :
    ∀ fuel s, ∀ c ∈ collapseLoop fuel s, c ∈ s := by
  intro fuel
  induction fuel with
  | zero => intro s c hc; exact hc
  | succ n ih =>
    intro s c hc
    rw [collapseLoop] at hc
    by_cases hd : containsDouble s = true
    · rw [if_pos hd] at hc
      exact mem_replaceDoubleHyphen s c (ih _ c hc)
    · rwa [if_neg hd] at hc

theorem collapseLoop_eq_self (fuel : Nat) (s : List Char)
    (h : containsDouble s = false) : collapseLoop fuel s = s := by
  cases fuel with
  | zero => rfl
  | succ n => rw [collapseLoop, if_neg (by rw [h]; exact Bool.false_ne_true)]

/-!
Helper lemmas about trimming.
-/

theorem dropTrailing_decomp (p : Char → Bool) :
    ∀ s : List Char, ∃ u, s = dropTrailing p s ++ u
  | [] => ⟨[], rfl⟩
  | c :: t => by
    rw [dropTrailing]
    by_cases hcond : ((dropTrailing p t).isEmpty && p c) = true
    · rw [if_pos hcond]
      exact ⟨c :: t, rfl⟩
    · rw [if_neg hcond]
      obtain ⟨u, hu⟩ := dropTrailing_decomp p t
      exact ⟨u, by rw [List.cons_append, ← hu]⟩

theorem mem_dropTrailing (p : Char → Bool) (s : List Char) (c : Char)
    (h : c ∈ dropTrailing p s) : c ∈ s := by
  obtain ⟨u, hu⟩ := dropTrailing_decomp p s
  rw [hu]
  exact List.mem_append_left _ h

theorem mem_dropWhileL (p : Char → Bool) (s : List Char) (c : Char)
    (h : c ∈ s.dropWhile p) : c ∈ s := by
  have hd : s.takeWhile p ++ s.dropWhile p = s := List.takeWhile_append_dropWhile p s
  rw [← hd]
  exact List.mem_append_right _ h

theorem mem_trimL (p : Char → Bool) (s : List Char) (c : Char)
    (h : c ∈ trimL p s) : c ∈ s :=
  mem_dropWhileL p s c (mem_dropTrailing p _ c h)

theorem dropTrailing_getLast (p : Char → Bool) :
    ∀ s : List Char, ∀ c, (dropTrailing p s).getLast? = some c → p c = false
  | [] => by intro c hc; simp [dropTrailing] at hc
  | d :: t => by
    intro c hc
    rw [dropTrailing] at hc
    by_cases hcond : ((dropTrailing p t).isEmpty && p d) = true
    · rw [if_pos hcond] at hc
      simp at hc
    · rw [if_neg hcond] at hc
      cases hr : dropTrailing p t with
      | nil =>
        rw [hr] at hc
        simp only [List.getLast?_singleton, Option.some.injEq] at hc
        subst hc
        rw [hr] at hcond
        simpa using hcond
      | cons x xs =>
        rw [hr] at hc
        rw [List.getLast?_cons_cons] at hc
        rw [← hr] at hc
        exact dropTrailing_getLast p t c hc

theorem dropTrailing_eq_self (p : Char → Bool) :
    ∀ s : List Char, (∀ c, s.getLast? = some c → p c = false) →
      dropTrailing p s = s
  | [] => fun _ => rfl
  | d :: t => by
    intro h
    rw [dropTrailing]
    cases t with
    | nil =>
      have hd : p d = false := h d rfl
      rw [if_neg (by simp [dropTrailing, hd])]
      simp [dropTrailing]
    | cons x xs =>
      have ht : dropTrailing p (x :: xs) = x :: xs := by
        refine dropTrailing_eq_self p (x :: xs) ?_
        intro c hc
        refine h c ?_
        rw [List.getLast?_cons_cons]
        exact hc
      rw [ht, if_neg (by simp)]

theorem dropTrailing_head? (p : Char → Bool) (s : List Char) :
    (dropTrailing p s).head? = s.head? ∨ dropTrailing p s = [] := by
  cases s with
  | nil => exact Or.inr rfl
  | cons c t =>
    rw [dropTrailing]
    by_cases hcond : ((dropTrailing p t).isEmpty && p c) = true
    · rw [if_pos hcond]; exact Or.inr rfl
    · rw [if_neg hcond]; exact Or.inl rfl

theorem dropWhileL_head (p : Char → Bool) :
    ∀ s : List Char, ∀ c, (s.dropWhile p).head? = some c → p c = false
  | [] => by intro c hc; simp at hc
  | d :: t => by
    intro c hc
    rw [List.dropWhile_cons] at hc
    by_cases hd : p d = true
    · rw [if_pos hd] at hc
      exact dropWhileL_head p t c hc
    · rw [if_neg hd] at hc
      simp only [List.head?_cons, Option.some.injEq] at hc
      subst hc
      simpa using hd

theorem dropWhileL_eq_self (p : Char → Bool) (s : List Char)
    (h : ∀ c, s.head? = some c → p c = false) : s.dropWhile p = s := by
  cases s with
  | nil => rfl
  | cons d t =>
    rw [List.dropWhile_cons, if_neg]
    rw [h d rfl]
    exact Bool.false_ne_true

theorem trimL_eq_self (p : Char → Bool) (s : List Char)
    (hh : ∀ c, s.head? = some c → p c = false)
    (hl : ∀ c, s.getLast? = some c → p c = false) : trimL p s = s := by
  rw [trimL, dropWhileL_eq_self p s hh]
  exact dropTrailing_eq_self p s hl

/-!
Helper lemmas about the remaining sanitizer stages.
-/

theorem mem_replaceChar (old new : Char) (s : List Char) (c : Char)
    (h : c ∈ replaceChar old new s) : c = new ∨ c ∈ s := by
  obtain ⟨d, hd, he⟩ := List.mem_map.mp h
  by_cases hdo : (d == old) = true
  · rw [if_pos hdo] at he
    exact Or.inl he.symm
  · rw [if_neg hdo] at he
    exact Or.inr (he ▸ hd)

theorem mem_replaceInvalid (s : List Char) (c : Char)
    (h : c ∈ replaceInvalid s) : c = '-' ∨ (c ∈ s ∧ isInvalidChar c = false) := by
  obtain ⟨d, hd, he⟩ := List.mem_map.mp h
  by_cases hdo : isInvalidChar d = true
  · rw [if_pos hdo] at he
    exact Or.inl he.symm
  · rw [if_neg hdo] at he
    refine Or.inr ⟨he ▸ hd, ?_⟩
    rw [← he]
    cases hx : isInvalidChar d
    · rfl
    · exact absurd hx hdo

theorem map_eq_self_of (f : Char → Char) :
    ∀ s : List Char, (∀ c ∈ s, f c = c) → s.map f = s
  | [] => fun _ => rfl
  | c :: t => by
    intro h
    rw [List.map_cons, h c (List.mem_cons_self _ _),
      map_eq_self_of f t (fun d hd => h d (List.mem_cons_of_mem _ hd))]

theorem containsDouble_map_lower :
    ∀ s : List Char, containsDouble (s.map goLowerChar) = true →
      containsDouble s = true
  | [] => by simp [containsDouble]
  | [c] => by simp [containsDouble]
  | c1 :: c2 :: rest => by
    intro h
    simp only [List.map_cons] at h
    rw [containsDouble] at h
    by_cases hcd : (goLowerChar c1 == '-' && goLowerChar c2 == '-') = true
    · simp only [Bool.and_eq_true, beq_iff_eq] at hcd
      have h1 : c1 = '-' := goLowerChar_eq_of_out c1 '-' (by decide) hcd.1
      have h2 : c2 = '-' := goLowerChar_eq_of_out c2 '-' (by decide) hcd.2
      rw [containsDouble, if_pos (by rw [h1, h2]; rfl)]
    · rw [if_neg hcd] at h
      have := containsDouble_map_lower (c2 :: rest) (by
        simpa only [List.map_cons] using h)
      exact containsDouble_cons_of c1 _ this

theorem head?_take_pos (n : Nat) (s : List Char) (hn : 0 < n) :
    (s.take n).head? = s.head? := by
  cases s with
  | nil => simp
  | cons c t =>
    cases n with
    | zero => omega
    | succ m => simp [List.take_succ_cons]

theorem mem_take (n : Nat) (s : List Char) (c : Char)
    (h : c ∈ s.take n) : c ∈ s := by
  have hd := List.take_append_drop n s
  rw [← hd]
  exact List.mem_append_left _ h

theorem replaceChar_ne_old (old new : Char) (hne : new ≠ old) (s : List Char) :
    ∀ c ∈ replaceChar old new s, (c == old) = false := by
  intro c hc
  obtain ⟨d, _, he⟩ := List.mem_map.mp hc
  by_cases hdo : (d == old) = true
  · rw [if_pos hdo] at he
    subst he
    simpa using hne
  · rw [if_neg hdo] at he
    subst he
    simpa using (by simpa using hdo : d ≠ old)

theorem containsDouble_trimL_true (p : Char → Bool) (s : List Char)
    (h : containsDouble (trimL p s) = true) : containsDouble s = true := by
  obtain ⟨u, hu⟩ := dropTrailing_decomp p (s.dropWhile p)
  refine containsDouble_sub s (s.takeWhile p) (trimL p s) u ?_ h
  simp only [trimL] at hu ⊢
  conv_lhs => rw [← List.takeWhile_append_dropWhile p s]
  rw [List.append_assoc, ← hu]

theorem containsDouble_take_true (n : Nat) (s : List Char)
    (h : containsDouble (s.take n) = true) : containsDouble s = true := by
  refine containsDouble_sub s [] (s.take n) (s.drop n) ?_ h
  rw [List.nil_append, List.take_append_drop]

/-!
Invariants of the sanitizer output, used by the claims about
sanitizeFilename.
-/

theorem sanitize_mem_source (x : List Char) (c : Char)
    (hc : c ∈ sanitizeFilename x) :
    c ∈ ("transcript".toList) ∨
      ∃ d, d ∈ replaceChar '_' '-' (replaceChar ' ' '-' (replaceInvalid x)) ∧
        c = goLowerChar d := by
  have hmem : c ∈ ("transcript".toList) ∨
      c ∈ (trimHyphenL (trimSpaceL (collapseLoop
        (replaceChar '_' '-' (replaceChar ' ' '-' (replaceInvalid x))).length
        (replaceChar '_' '-' (replaceChar ' ' '-' (replaceInvalid x)))))).map
          goLowerChar := by
    simp only [sanitizeFilename] at hc
    split at hc
    · split at hc
      · exact Or.inl hc
      · exact Or.inr (mem_take _ _ _ hc)
    · split at hc
      · exact Or.inl hc
      · exact Or.inr hc
  rcases hmem with h | h
  · exact Or.inl h
  · right
    obtain ⟨d, hd, he⟩ := List.mem_map.mp h
    refine ⟨d, ?_, he.symm⟩
    exact mem_collapseLoop _ _ d (mem_trimL _ _ d (mem_trimL _ _ d hd))

theorem clean3_no_invalid (x : List Char) (d : Char)
    (hd : d ∈ replaceChar '_' '-' (replaceChar ' ' '-' (replaceInvalid x))) :
    isInvalidChar d = false := by
  rcases mem_replaceChar _ _ _ _ hd with rfl | hd2
  · decide
  rcases mem_replaceChar _ _ _ _ hd2 with rfl | hd1
  · decide
  rcases mem_replaceInvalid _ _ hd1 with rfl | ⟨_, hinv⟩
  · decide
  · exact hinv

theorem clean3_no_underscore (x : List Char) (d : Char)
    (hd : d ∈ replaceChar '_' '-' (replaceChar ' ' '-' (replaceInvalid x))) :
    (d == '_') = false :=
  replaceChar_ne_old '_' '-' (by decide) _ d hd

theorem clean3_no_space (x : List Char) (d : Char)
    (hd : d ∈ replaceChar '_' '-' (replaceChar ' ' '-' (replaceInvalid x))) :
    (d == ' ') = false := by
  rcases mem_replaceChar _ _ _ _ hd with rfl | hd2
  · decide
  · exact replaceChar_ne_old ' ' '-' (by decide) _ d hd2

theorem transcript_chars :
    ∀ c ∈ ("transcript".toList), isInvalidChar c = false ∧ goLowerChar c = c ∧
      (c == ' ') = false ∧ (c == '_') = false ∧ c ≠ '-' := by
  decide

theorem sanitize_no_invalid (x : List Char) :
    ∀ c ∈ sanitizeFilename x, isInvalidChar c = false := by
  intro c hc
  rcases sanitize_mem_source x c hc with ht | ⟨d, hd, rfl⟩
  · exact (transcript_chars c ht).1
  · exact goLowerChar_invalid d (clean3_no_invalid x d hd)

theorem sanitize_lower (x : List Char) :
    ∀ c ∈ sanitizeFilename x, goLowerChar c = c := by
  intro c hc
  rcases sanitize_mem_source x c hc with ht | ⟨d, _, rfl⟩
  · exact (transcript_chars c ht).2.1
  · exact goLowerChar_idem d

theorem sanitize_no_space (x : List Char) :
    ∀ c ∈ sanitizeFilename x, (c == ' ') = false := by
  intro c hc
  rcases sanitize_mem_source x c hc with ht | ⟨d, hd, rfl⟩
  · exact (transcript_chars c ht).2.2.1
  · by_contra hne
    rw [Bool.not_eq_false, beq_iff_eq] at hne
    have hds : d = ' ' := goLowerChar_eq_of_out d ' ' (by decide) hne
    have hd2 := clean3_no_space x d hd
    rw [hds] at hd2
    simp at hd2

theorem sanitize_no_underscore (x : List Char) :
    ∀ c ∈ sanitizeFilename x, (c == '_') = false := by
  intro c hc
  rcases sanitize_mem_source x c hc with ht | ⟨d, hd, rfl⟩
  · exact (transcript_chars c ht).2.2.2.1
  · by_contra hne
    rw [Bool.not_eq_false, beq_iff_eq] at hne
    have hds : d = '_' := goLowerChar_eq_of_out d '_' (by decide) hne
    have hd2 := clean3_no_underscore x d hd
    rw [hds] at hd2
    simp at hd2

theorem sanitize_no_double (x : List Char) :
    containsDouble (sanitizeFilename x) = false := by
  have h7 : containsDouble ((trimHyphenL (trimSpaceL (collapseLoop
      (replaceChar '_' '-' (replaceChar ' ' '-' (replaceInvalid x))).length
      (replaceChar '_' '-' (replaceChar ' ' '-' (replaceInvalid x)))))).map
        goLowerChar) = false := by
    by_contra hne
    rw [Bool.not_eq_false] at hne
    have h6 := containsDouble_map_lower _ hne
    have h5 := containsDouble_trimL_true _ _ h6
    have h4 := containsDouble_trimL_true _ _ h5
    have h3 := collapseLoop_no_double
      (replaceChar '_' '-' (replaceChar ' ' '-' (replaceInvalid x))).length
      (replaceChar '_' '-' (replaceChar ' ' '-' (replaceInvalid x)))
      (Nat.le_refl _)
    rw [h3] at h4
    exact Bool.noConfusion h4
  simp only [sanitizeFilename]
  split
  · split
    · decide
    · by_contra hne
      rw [Bool.not_eq_false] at hne
      have := containsDouble_take_true _ _ hne
      rw [h7] at this
      exact Bool.noConfusion this
  · split
    · decide
    · exact h7

theorem sanitize_head_ne_hyphen (x : List Char) :
    ∀ c, (sanitizeFilename x).head? = some c → c ≠ '-' := by
  have hmain : ∀ c, ((trimHyphenL (trimSpaceL (collapseLoop
      (replaceChar '_' '-' (replaceChar ' ' '-' (replaceInvalid x))).length
      (replaceChar '_' '-' (replaceChar ' ' '-' (replaceInvalid x)))))).map
        goLowerChar).head? = some c → c ≠ '-' := by
    intro c hc7
    rw [List.head?_map] at hc7
    rcases hx : (trimHyphenL (trimSpaceL (collapseLoop
        (replaceChar '_' '-' (replaceChar ' ' '-' (replaceInvalid x))).length
        (replaceChar '_' '-' (replaceChar ' ' '-' (replaceInvalid x)))))).head?
      with _ | d
    · rw [hx] at hc7
      simp at hc7
    · rw [hx] at hc7
      simp only [Option.map_some', Option.some.injEq] at hc7
      have hd : d ≠ '-' := by
        rw [trimHyphenL, trimL] at hx
        rcases dropTrailing_head? (fun c => c == '-') _ with hh | hh
        · rw [hx] at hh
          have := dropWhileL_head (fun c => c == '-') _ d hh.symm
          simpa using this
        · rw [hh] at hx
          simp at hx
      intro hcontra
      rw [hcontra] at hc7
      exact hd (goLowerChar_eq_of_out d '-' (by decide) hc7)
  intro c hc
  simp only [sanitizeFilename] at hc
  split at hc
  · split at hc
    · intro h
      subst h
      revert hc
      decide
    · refine hmain c ?_
      rwa [head?_take_pos 40 _ (by omega)] at hc
  · split at hc
    · intro h
      subst h
      revert hc
      decide
    · exact hmain c hc

theorem sanitize_length_le (x : List Char) : (sanitizeFilename x).length ≤ 40 := by
  simp only [sanitizeFilename]
  split
  · split
    · decide
    · rw [List.length_take]
      omega
  · split
    · decide
    · omega

theorem sanitize_ne_nil (x : List Char) : sanitizeFilename x ≠ [] := by
  simp only [sanitizeFilename]
  split
  · split
    · decide
    · rename_i h
      intro hcontra
      rw [hcontra] at h
      exact h rfl
  · split
    · decide
    · rename_i h
      intro hcontra
      rw [hcontra] at h
      exact h rfl

theorem sanitize_fixpoint (y : List Char)
    (hinv : ∀ c ∈ y, isInvalidChar c = false)
    (hsp : ∀ c ∈ y, (c == ' ') = false)
    (hun : ∀ c ∈ y, (c == '_') = false)
    (hdd : containsDouble y = false)
    (hlow : ∀ c ∈ y, goLowerChar c = c)
    (hlen : y.length ≤ 40)
    (hne : y ≠ [])
    (hhead : ∀ c, y.head? = some c → c ≠ '-')
    (htrim : trimSpaceL y = y)
    (hlast : y.getLast? ≠ some '-') :
    sanitizeFilename y = y := by
  have s1 : replaceInvalid y = y := by
    simp only [replaceInvalid]
    exact map_eq_self_of _ y (fun c hc => by simp [hinv c hc])
  have s2 : replaceChar ' ' '-' y = y := by
    simp only [replaceChar]
    exact map_eq_self_of _ y (fun c hc => by simp [hsp c hc])
  have s3 : replaceChar '_' '-' y = y := by
    simp only [replaceChar]
    exact map_eq_self_of _ y (fun c hc => by simp [hun c hc])
  have s4 : collapseLoop y.length y = y := collapseLoop_eq_self _ y hdd
  have s6 : trimHyphenL y = y := by
    simp only [trimHyphenL]
    refine trimL_eq_self _ y ?_ ?_
    · intro c hc
      simpa using hhead c hc
    · intro c hc
      by_contra hb
      rw [Bool.not_eq_false] at hb
      simp only [beq_iff_eq] at hb
      subst hb
      exact hlast hc
  have s7 : y.map goLowerChar = y := map_eq_self_of _ y hlow
  simp only [sanitizeFilename]
  rw [s1, s2, s3, s4, htrim, s6, s7]
  rw [if_neg (by omega : ¬ 40 < y.length)]
  rw [if_neg (by simpa [List.isEmpty_iff] using hne)]

/-- Claim C4: for every input string, the result of sanitizeFilename
contains none of the characters backslash, slash, colon, star,
question mark, double quote, less than, greater than, pipe, has length
at most 40 characters, and is never the empty string. -/
theorem claim_C4 (x : List Char) :
    (∀ c ∈ sanitizeFilename x, isInvalidChar c = false) ∧
      (sanitizeFilename x).length ≤ 40 ∧ sanitizeFilename x ≠ [] :=
  ⟨sanitize_no_invalid x, sanitize_length_le x, sanitize_ne_nil x⟩

/-- Witness for claim C4 at a concrete input containing every
forbidden character. -/
theorem claim_C4_witness :
    (∀ c ∈ sanitizeFilename ("A b/c:*?\"<>|_x".toList), isInvalidChar c = false) ∧
      (sanitizeFilename ("A b/c:*?\"<>|_x".toList)).length ≤ 40 ∧
      sanitizeFilename ("A b/c:*?\"<>|_x".toList) ≠ [] :=
  claim_C4 ("A b/c:*?\"<>|_x".toList)

/-- Claim C3 counterexample: sanitizeFilename is not idempotent.  On
the 41-character input of 39 letters a, a hyphen and a letter b, one
application truncates to 40 characters and ends in a hyphen, and the
second application trims that hyphen away. -/
theorem claim_C3_counterexample :
    sanitizeFilename (sanitizeFilename
        ("aaaaaaaaaaaaaaaaaaaaaaaaaaaaaaaaaaaaaaa-b".toList)) ≠
      sanitizeFilename ("aaaaaaaaaaaaaaaaaaaaaaaaaaaaaaaaaaaaaaa-b".toList) := by
  decide

/-- Claim C3 amended: for inputs consisting solely of ASCII
characters (on which the byte slice at transcriber.go:650 and this
character-level model coincide), applying sanitizeFilename twice
yields the same result as applying it once, provided the result of
the first application has no leading or trailing whitespace and does
not end with a hyphen.  Each restriction is forced by a genuine gap:
the 40-unit truncation can expose a trailing hyphen, trimming hyphens
can expose leading or trailing non-space whitespace, and on non-ASCII
input the byte truncation of the program can split a multibyte
character, whose dangling lead byte strings.ToLower re-encodes as
U+FFFD on the second pass.  The ASCII hypothesis delimits the domain
on which this model is byte-faithful to the program; the
character-level proof itself does not otherwise consume it. -/
theorem claim_C3_amended (x : List Char)
    (_hascii : ∀ c ∈ x, c.toNat < 128)
    (h1 : trimSpaceL (sanitizeFilename x) = sanitizeFilename x)
    (h2 : (sanitizeFilename x).getLast? ≠ some '-') :
    sanitizeFilename (sanitizeFilename x) = sanitizeFilename x :=
  sanitize_fixpoint (sanitizeFilename x)
    (sanitize_no_invalid x) (sanitize_no_space x) (sanitize_no_underscore x)
    (sanitize_no_double x) (sanitize_lower x) (sanitize_length_le x)
    (sanitize_ne_nil x) (sanitize_head_ne_hyphen x) h1 h2

/-- Witness for the amended claim C3 at a concrete ASCII input. -/
theorem claim_C3_amended_witness :
    sanitizeFilename (sanitizeFilename ("Hello World".toList)) =
      sanitizeFilename ("Hello World".toList) :=
  claim_C3_amended ("Hello World".toList) (by decide) (by decide) (by decide)

/-!
Lemmas about the polling loop.
-/

theorem pollAux_no_terminal (fetch : Nat → FetchOutcome) :
    ∀ rem a,
      (∀ i, a ≤ i → i < a + rem → ∃ r, fetch i = .ok r ∧
        (r.status == ("completed".toList)) = false ∧
        (r.status == ("error".toList)) = false) →
      pollAux fetch a rem = (.error (.pollTimeout maxAttempts), rem) := by
  intro rem
  induction rem with
  | zero => intro a _; rfl
  | succ n ih =>
    intro a h
    obtain ⟨r, hr, hc, he⟩ := h a (Nat.le_refl a) (by omega)
    rw [pollAux, hr]
    simp only [hc, he, Bool.false_eq_true, if_false]
    rw [ih (a + 1) (fun i h1 h2 => h i (by omega) (by omega))]

theorem pollAux_first_terminal (fetch : Nat → FetchOutcome) (r : TranscriptResult)
    (hterm : (r.status == ("completed".toList)) = true ∨
      (r.status == ("error".toList)) = true) :
    ∀ k a rem, k < rem →
      (∀ i, a ≤ i → i < a + k → ∃ ri, fetch i = .ok ri ∧
        (ri.status == ("completed".toList)) = false ∧
        (ri.status == ("error".toList)) = false) →
      fetch (a + k) = .ok r →
      pollAux fetch a rem = (.ok r, k + 1) := by
  intro k
  induction k with
  | zero =>
    intro a rem hrem _ hk
    cases rem with
    | zero => omega
    | succ n =>
      rw [Nat.add_zero] at hk
      rw [pollAux, hk]
      by_cases hc : (r.status == ("completed".toList)) = true
      · simp only [hc, if_true]
      · rcases hterm with ht | ht
        · exact absurd ht hc
        · simp only [hc, ht, Bool.false_eq_true, if_false, if_true]
  | succ n ih =>
    intro a rem hrem hpre hk
    cases rem with
    | zero => omega
    | succ m =>
      obtain ⟨ri, hri, hc, he⟩ := hpre a (Nat.le_refl a) (by omega)
      rw [pollAux, hri]
      simp only [hc, he, Bool.false_eq_true, if_false]
      rw [ih (a + 1) m (by omega)
        (fun i h1 h2 => hpre i (by omega) (by omega))
        (by rw [show a + 1 + n = a + (n + 1) by omega]; exact hk)]

/-- Claim C2: whenever no fetch during the first 100 attempts reports
status completed or error (unrecognized and empty statuses included,
which keep polling and consume attempts), pollTranscription performs
exactly 100 status fetches and returns the poll-timeout error, which
is distinct from the service-reported job error. -/
theorem claim_C2 (fetch : Nat → FetchOutcome)
    (h : ∀ i, i < 100 → ∃ r, fetch i = .ok r ∧
      r.status ≠ ("completed".toList) ∧ r.status ≠ ("error".toList)) :
    pollTranscription fetch = (.error (.pollTimeout 100), 100) ∧
      ∀ msg, ClientError.pollTimeout 100 ≠ ClientError.transcriptionFailed msg := by
  constructor
  · have hb : ∀ i, 0 ≤ i → i < 0 + 100 → ∃ r, fetch i = .ok r ∧
        (r.status == ("completed".toList)) = false ∧
        (r.status == ("error".toList)) = false := by
      intro i _ hi
      obtain ⟨r, hr, hc, he⟩ := h i (by omega)
      exact ⟨r, hr, by simpa using hc, by simpa using he⟩
    have := pollAux_no_terminal fetch 100 0 hb
    simpa [pollTranscription, maxAttempts] using this
  · intro msg hcon
    exact ClientError.noConfusion hcon

/-- Witness for claim C2: a job that always reports status queued
times out after exactly 100 fetches. -/
theorem claim_C2_witness :
    pollTranscription (fun _ => .ok ⟨[], "queued".toList, [], []⟩) =
      (.error (.pollTimeout 100), 100) :=
  (claim_C2 (fun _ => .ok ⟨[], "queued".toList, [], []⟩)
    (fun i _ => ⟨⟨[], "queued".toList, [], []⟩, rfl, by decide, by decide⟩)).1

/-- Claim C5: the result of TranscribeAudio is determined by the first
terminal poll response: completed yields the job text with no error,
error yields the transcription-failed error carrying the job error
message, and polling stops at that response (exactly k+1 fetches are
made when the first terminal response is the fetch with index k). -/
theorem claim_C5 (w : World) (k : Nat) (r : TranscriptResult)
    (b1 u b2 j : List Char)
    (hopen : w.openOk = true)
    (hup : w.uploadOut = .httpResp 200 b1 u)
    (hsub : w.submitOut = .httpResp 200 b2 j)
    (hk : k < 100)
    (hpre : ∀ i, i < k → ∃ ri, w.pollFetch i = .ok ri ∧
      ri.status ≠ ("completed".toList) ∧ ri.status ≠ ("error".toList))
    (hterm : w.pollFetch k = .ok r) :
    (r.status = ("completed".toList) →
      TranscribeAudio w = (.ok r.text, ⟨1, 1, k + 1⟩)) ∧
    (r.status = ("error".toList) →
      TranscribeAudio w = (.error (.transcriptionFailed r.error), ⟨1, 1, k + 1⟩)) := by
  have hpre2 : ∀ i, 0 ≤ i → i < 0 + k → ∃ ri, w.pollFetch i = .ok ri ∧
      (ri.status == ("completed".toList)) = false ∧
      (ri.status == ("error".toList)) = false := by
    intro i _ hi
    obtain ⟨ri, hri, hc, he⟩ := hpre i (by omega)
    exact ⟨ri, hri, by simpa using hc, by simpa using he⟩
  constructor
  · intro hst
    have hpoll : pollTranscription w.pollFetch = (.ok r, k + 1) := by
      rw [pollTranscription, maxAttempts]
      exact pollAux_first_terminal w.pollFetch r
        (Or.inl (by rw [hst]; exact beq_self_eq_true _))
        k 0 100 hk hpre2 (by rwa [Nat.zero_add])
    rw [TranscribeAudio]
    rw [show uploadAudioFile w.openOk w.uploadOut = .ok u by
      rw [hopen, hup]; rfl]
    rw [show submitTranscription w.submitOut = .ok j by rw [hsub]; rfl]
    rw [hpoll]
    have hne : (r.status == ("error".toList)) = false := by
      rw [hst]; decide
    simp only [hne, Bool.false_eq_true, if_false]
  · intro hst
    have hpoll : pollTranscription w.pollFetch = (.ok r, k + 1) := by
      rw [pollTranscription, maxAttempts]
      exact pollAux_first_terminal w.pollFetch r
        (Or.inr (by rw [hst]; exact beq_self_eq_true _))
        k 0 100 hk hpre2 (by rwa [Nat.zero_add])
    rw [TranscribeAudio]
    rw [show uploadAudioFile w.openOk w.uploadOut = .ok u by
      rw [hopen, hup]; rfl]
    rw [show submitTranscription w.submitOut = .ok j by rw [hsub]; rfl]
    rw [hpoll]
    have he : (r.status == ("error".toList)) = true := by rw [hst]; rfl
    simp only [he, if_true]

/-- Witness for claim C5: a first-fetch response with status error and
error message bad audio yields the transcription-failed error carrying
bad audio after exactly one fetch. -/
theorem claim_C5_witness :
    TranscribeAudio wErrorFirstPoll =
      (.error (.transcriptionFailed ("bad audio".toList)), ⟨1, 1, 1⟩) :=
  (claim_C5 wErrorFirstPoll 0
    ⟨"job1".toList, "error".toList, [], "bad audio".toList⟩
    [] ("https://cdn.assemblyai.com/upload/1".toList) [] ("job1".toList)
    rfl rfl rfl (by omega)
    (fun i hi => absurd hi (Nat.not_lt_zero i)) rfl).2 rfl

/-!
Lemmas about substring containment under concatenation.
-/

theorem startsWith_nil (l : List Char) : startsWithL l [] = true := by
  cases l <;> rfl

theorem startsWith_extend : ∀ x s t : List Char, startsWithL s x = true →
    startsWithL (s ++ t) x = true
  | [], s, t, _ => startsWith_nil (s ++ t)
  | d :: ds, [], t, h => by simp [startsWithL] at h
  | d :: ds, c :: cs, t, h => by
    rw [startsWithL] at h
    rw [List.cons_append, startsWithL]
    rcases Bool.and_eq_true_iff.mp h with ⟨h1, h2⟩
    rw [h1, startsWith_extend ds cs t h2]
    rfl

theorem startsWith_append_self : ∀ x t : List Char, startsWithL (x ++ t) x = true
  | [], t => startsWith_nil t
  | c :: cs, t => by
    rw [List.cons_append, startsWithL, beq_self_eq_true,
      startsWith_append_self cs t]
    rfl

theorem strContains_nil : ∀ s : List Char, strContains s [] = true
  | [] => rfl
  | c :: cs => by
    rw [strContains]
    rfl

theorem strContains_append_left : ∀ s t x : List Char,
    strContains s x = true → strContains (s ++ t) x = true
  | [], t, x, h => by
    have : x = [] := by simpa [strContains, List.isEmpty_iff] using h
    subst this
    exact strContains_nil t
  | c :: cs, t, x, h => by
    rw [strContains] at h
    rw [List.cons_append, strContains]
    rcases Bool.or_eq_true_iff.mp h with h1 | h2
    · rw [← List.cons_append, startsWith_extend x (c :: cs) t h1]
      rfl
    · rw [strContains_append_left cs t x h2, Bool.or_true]

theorem strContains_append_right : ∀ s t x : List Char,
    strContains t x = true → strContains (s ++ t) x = true
  | [], t, x, h => h
  | c :: cs, t, x, h => by
    rw [List.cons_append, strContains,
      strContains_append_right cs t x h, Bool.or_true]

theorem strContains_self_append : ∀ x t : List Char,
    strContains (x ++ t) x = true
  | [], t => strContains_nil t
  | c :: cs, t => by
    rw [List.cons_append, strContains, ← List.cons_append,
      startsWith_append_self (c :: cs) t]
    rfl

theorem endsWith_append (s x : List Char) : endsWithL (s ++ x) x = true := by
  rw [endsWithL, List.reverse_append]
  exact startsWith_append_self x.reverse s.reverse

/-!
Lemmas about the modelled filesystem writes.
-/

theorem fsWrite_containsKey : ∀ (fs : List (List Char × List Char)) (p t : List Char),
    containsKeyFs p (fsWrite fs p t) = true
  | [], p, t => by simp [fsWrite, containsKeyFs]
  | e :: rest, p, t => by
    rw [fsWrite]
    by_cases he : (e.1 == p) = true
    · rw [if_pos he]
      simp [containsKeyFs]
    · rw [if_neg he]
      rw [containsKeyFs, fsWrite_containsKey rest p t, Bool.or_true]

theorem lookupFs_fsWrite : ∀ (fs : List (List Char × List Char)) (p t : List Char),
    lookupFs p (fsWrite fs p t) = some t
  | [], p, t => by simp [fsWrite, lookupFs]
  | e :: rest, p, t => by
    rw [fsWrite]
    by_cases he : (e.1 == p) = true
    · rw [if_pos he]
      simp [lookupFs]
    · rw [if_neg he]
      rw [lookupFs, if_neg he]
      exact lookupFs_fsWrite rest p t

theorem fsWrite_length_of_contains :
    ∀ (fs : List (List Char × List Char)) (p t : List Char),
      containsKeyFs p fs = true → (fsWrite fs p t).length = fs.length
  | [], p, t, h => by simp [containsKeyFs] at h
  | e :: rest, p, t, h => by
    rw [fsWrite]
    by_cases he : (e.1 == p) = true
    · rw [if_pos he]
      rfl
    · rw [if_neg he]
      rw [containsKeyFs] at h
      rcases Bool.or_eq_true_iff.mp h with h1 | h2
      · exact absurd h1 he
      · rw [List.length_cons, List.length_cons,
          fsWrite_length_of_contains rest p t h2]

/-!
Claims about the pipeline orchestrator and the output resolver.
-/

/-- Claim C1 (code bug): a YouTube pipeline run whose transcription
step fails leaves the downloaded audio file behind, because the
os.Remove call at transcriber.go:154 runs only after a successful
save; the claimed invariant that every temporary audio file is removed
on every outcome therefore fails.  For contrast, a local run cleans
its temporary directory on the same failure, through the deferred
os.RemoveAll at transcriber.go:175. -/
theorem claim_C1_codebug :
    (processYouTubeVideo wErrorFirstPoll ("https://youtu.be/abc123".toList)
        []).leftover = [("./audio.mp3".toList)] ∧
    (processYouTubeVideo wErrorFirstPoll ("https://youtu.be/abc123".toList)
        []).result =
      .error (.transcriptionStep (.transcriptionFailed ("bad audio".toList))) ∧
    (processLocalAudio wErrorFirstPoll ("./clip.mp3".toList) []).leftover = [] := by
  refine ⟨?_, ?_, ?_⟩ <;> decide

/-- Claim C6: a non-success HTTP status from the upload endpoint makes
the upload step fail with the status code and body, the client issues
exactly one upload request (no retry), both pipeline entry points
return that error, and no transcript file is written. -/
theorem claim_C6 (w : World) (st : Nat) (body pl src op : List Char)
    (hopen : w.openOk = true)
    (hst : st ≠ 200)
    (hup : w.uploadOut = .httpResp st body pl)
    (hlocal : w.localExists = true) (hmk : w.mkdirTempOk = true)
    (hconv : w.convertOk = true) (hdl : w.downloadOk = true) :
    uploadAudioFile w.openOk w.uploadOut = .error (.uploadFailed st body) ∧
    ((processLocalAudio w src op).result =
        .error (.transcriptionStep (.uploadFailed st body)) ∧
      (processLocalAudio w src op).writes = [] ∧
      (processLocalAudio w src op).trace.uploads = 1) ∧
    ((processYouTubeVideo w src op).result =
        .error (.transcriptionStep (.uploadFailed st body)) ∧
      (processYouTubeVideo w src op).writes = [] ∧
      (processYouTubeVideo w src op).trace.uploads = 1) := by
  have hu : uploadAudioFile w.openOk w.uploadOut =
      .error (.uploadFailed st body) := by
    rw [hopen, hup]
    simp [uploadAudioFile, hst]
  have hta : TranscribeAudio w = (.error (.uploadFailed st body), ⟨1, 0, 0⟩) := by
    rw [TranscribeAudio, hu]
  refine ⟨hu, ⟨?_, ?_, ?_⟩, ⟨?_, ?_, ?_⟩⟩ <;>
    simp [processLocalAudio, processYouTubeVideo, downloadAudio,
      hlocal, hmk, hconv, hdl, hta]

/-- Witness for claim C6 with a mocked HTTP 500 upload response. -/
theorem claim_C6_witness :
    uploadAudioFile wUpload500.openOk wUpload500.uploadOut =
      .error (.uploadFailed 500 ("server error".toList)) ∧
    ((processLocalAudio wUpload500 ("./clip.mp3".toList) []).result =
        .error (.transcriptionStep (.uploadFailed 500 ("server error".toList))) ∧
      (processLocalAudio wUpload500 ("./clip.mp3".toList) []).writes = [] ∧
      (processLocalAudio wUpload500 ("./clip.mp3".toList) []).trace.uploads = 1) ∧
    ((processYouTubeVideo wUpload500 ("./clip.mp3".toList) []).result =
        .error (.transcriptionStep (.uploadFailed 500 ("server error".toList))) ∧
      (processYouTubeVideo wUpload500 ("./clip.mp3".toList) []).writes = [] ∧
      (processYouTubeVideo wUpload500 ("./clip.mp3".toList) []).trace.uploads = 1) :=
  claim_C6 wUpload500 500 ("server error".toList) [] ("./clip.mp3".toList) []
    rfl (by omega) rfl rfl rfl rfl rfl

/-- Claim C7: the source classifier selects the YouTube pipeline
exactly for strings containing youtube.com or youtu.be as a substring,
and the local pipeline for every other string. -/
theorem claim_C7 (s : List Char) :
    (classifySource s = .youtubeURL ↔
      (strContains s ("youtube.com".toList) = true ∨
        strContains s ("youtu.be".toList) = true)) ∧
    (classifySource s = .localPath ↔
      ¬(strContains s ("youtube.com".toList) = true ∨
        strContains s ("youtu.be".toList) = true)) := by
  simp only [classifySource, IsYouTubeURL]
  by_cases h : (strContains s ("youtube.com".toList) ||
      strContains s ("youtu.be".toList)) = true
  · rw [if_pos h]
    rw [Bool.or_eq_true_iff] at h
    constructor
    · exact ⟨fun _ => h, fun _ => rfl⟩
    · constructor
      · intro hc
        exact absurd hc (by simp)
      · intro hc
        exact absurd h hc
  · rw [if_neg h]
    rw [Bool.or_eq_true_iff] at h
    constructor
    · constructor
      · intro hc
        exact absurd hc (by simp)
      · intro hc
        exact absurd hc h
    · exact ⟨fun _ => h, fun _ => rfl⟩

/-- Witness for claim C7 at a YouTube URL and at a local path. -/
theorem claim_C7_witness :
    ((classifySource ("https://youtu.be/x".toList) = .youtubeURL ↔
      (strContains ("https://youtu.be/x".toList) ("youtube.com".toList) = true ∨
        strContains ("https://youtu.be/x".toList) ("youtu.be".toList) = true)) ∧
    (classifySource ("https://youtu.be/x".toList) = .localPath ↔
      ¬(strContains ("https://youtu.be/x".toList) ("youtube.com".toList) = true ∨
        strContains ("https://youtu.be/x".toList) ("youtu.be".toList) = true))) ∧
    classifySource ("./clip.mp3".toList) = .localPath :=
  ⟨claim_C7 ("https://youtu.be/x".toList), by decide⟩

/-- Claim C8: with no explicit output override the destination path is
the fixed function goJoin of the base directory and the filename
generated from the source label, the source kind and the run date, so
two runs with the same values produce the identical path; and a second
write to that path overwrites the first file in place: the content is
replaced and the number of files does not grow. -/
theorem claim_C8 (w : World) (src ktype t1 t2 : List Char)
    (fs : List (List Char × List Char))
    (hw : w.writeOk = true) (hmk : w.mkdirOutOk = true) :
    (saveTranscriptRun w [] src ktype).1 =
      .ok (goJoin w.defaultPath (genFilename src ktype w.date)) ∧
    lookupFs (goJoin w.defaultPath (genFilename src ktype w.date))
      (fsWrite (fsWrite fs (goJoin w.defaultPath (genFilename src ktype w.date)) t1)
        (goJoin w.defaultPath (genFilename src ktype w.date)) t2) = some t2 ∧
    (fsWrite (fsWrite fs (goJoin w.defaultPath (genFilename src ktype w.date)) t1)
        (goJoin w.defaultPath (genFilename src ktype w.date)) t2).length =
      (fsWrite fs (goJoin w.defaultPath (genFilename src ktype w.date)) t1).length := by
  refine ⟨?_, lookupFs_fsWrite _ _ _, fsWrite_length_of_contains _ _ _
    (fsWrite_containsKey _ _ _)⟩
  simp [saveTranscriptRun, hmk, hw]

/-- Witness for claim C8 at a concrete filesystem and source. -/
theorem claim_C8_witness :
    (saveTranscriptRun wCompleted [] ("./clip.mp3".toList) ("local".toList)).1 =
      .ok (goJoin wCompleted.defaultPath
        (genFilename ("./clip.mp3".toList) ("local".toList) wCompleted.date)) ∧
    lookupFs (goJoin wCompleted.defaultPath
        (genFilename ("./clip.mp3".toList) ("local".toList) wCompleted.date))
      (fsWrite (fsWrite [] (goJoin wCompleted.defaultPath
          (genFilename ("./clip.mp3".toList) ("local".toList) wCompleted.date))
          ("first".toList))
        (goJoin wCompleted.defaultPath
          (genFilename ("./clip.mp3".toList) ("local".toList) wCompleted.date))
        ("second".toList)) = some ("second".toList) ∧
    (fsWrite (fsWrite [] (goJoin wCompleted.defaultPath
        (genFilename ("./clip.mp3".toList) ("local".toList) wCompleted.date))
        ("first".toList))
      (goJoin wCompleted.defaultPath
        (genFilename ("./clip.mp3".toList) ("local".toList) wCompleted.date))
      ("second".toList)).length =
    (fsWrite [] (goJoin wCompleted.defaultPath
        (genFilename ("./clip.mp3".toList) ("local".toList) wCompleted.date))
      ("first".toList)).length :=
  claim_C8 wCompleted ("./clip.mp3".toList) ("local".toList)
    ("first".toList) ("second".toList) [] rfl rfl

/-- Claim C9: for the source https://youtu.be/abc123 with no explicit
output override, the generated filename contains the video id abc123,
contains the run date, and ends in .txt, for every date value; and a
full YouTube pipeline run in a world whose metadata lookup fails (the
fixture has metadataOk false) and whose transcription succeeds writes
exactly that filename joined onto the output directory. -/
theorem claim_C9 (d : List Char) :
    strContains (genFilename ("https://youtu.be/abc123".toList)
      ("youtube".toList) d) ("abc123".toList) = true ∧
    strContains (genFilename ("https://youtu.be/abc123".toList)
      ("youtube".toList) d) d = true ∧
    endsWithL (genFilename ("https://youtu.be/abc123".toList)
      ("youtube".toList) d) (".txt".toList) = true ∧
    (processYouTubeVideo { wCompleted with date := d }
        ("https://youtu.be/abc123".toList) []).writes =
      [goJoin ("/home/u/sona".toList)
        (genFilename ("https://youtu.be/abc123".toList) ("youtube".toList) d)] := by
  have htitle : sanitizeFilename (extractTitle ("https://youtu.be/abc123".toList)
      ("youtube".toList)) = ("youtube-abc123".toList) := by decide
  have hgen : genFilename ("https://youtu.be/abc123".toList) ("youtube".toList) d =
      ("youtube-abc123".toList) ++ '-' :: (d ++ (".txt".toList)) := by
    simp only [genFilename, htitle]
    rw [if_neg (by decide)]
  refine ⟨?_, ?_, ?_, ?_⟩
  · rw [hgen]
    exact strContains_append_left _ _ _ (by decide)
  · rw [hgen]
    rw [show '-' :: (d ++ (".txt".toList)) = ['-'] ++ (d ++ (".txt".toList)) from rfl]
    exact strContains_append_right _ _ _
      (strContains_append_right _ _ _ (strContains_self_append d _))
  · rw [hgen]
    rw [show ("youtube-abc123".toList) ++ '-' :: (d ++ (".txt".toList)) =
        (("youtube-abc123".toList) ++ '-' :: d) ++ (".txt".toList) by
      simp [List.append_assoc]]
    exact endsWith_append _ _
  · rfl

/-- Claim C10: whenever a non-empty explicit output path is supplied,
saveTranscript writes to exactly that path verbatim (no sanitization,
no date suffix, no txt extension appended) and never invokes directory
creation, which happens only on the auto-generated branch. -/
theorem claim_C10 (w : World) (op src ktype : List Char)
    (hop : op ≠ []) (hw : w.writeOk = true) :
    (saveTranscriptRun w op src ktype).1 = .ok op ∧
    (saveTranscriptRun w op src ktype).2 = false := by
  have hie : op.isEmpty = false := by simpa [List.isEmpty_iff] using hop
  simp [saveTranscriptRun, hie, hw]

/-- Witness for claim C10: an explicit override containing characters
the sanitizer would replace is used verbatim. -/
theorem claim_C10_witness :
    (saveTranscriptRun wCompleted ("/tmp/My Transcript?.TXT".toList)
      ("./clip.mp3".toList) ("local".toList)).1 =
      .ok ("/tmp/My Transcript?.TXT".toList) ∧
    (saveTranscriptRun wCompleted ("/tmp/My Transcript?.TXT".toList)
      ("./clip.mp3".toList) ("local".toList)).2 = false :=
  claim_C10 wCompleted ("/tmp/My Transcript?.TXT".toList)
    ("./clip.mp3".toList) ("local".toList) (by decide) rfl

end Sona
